import Mathlib

set_option autoImplicit false

/-!
Verification of the PersonaMate entity pipeline: a shallow embedding of
`chunk_generator.py`, `mongo_store.py`, `vector_store.py`, `neo4j_graph.py`
and `embedding_pipeline.py`, together with proofs of the specified
properties (dedup invariant, merge semantics, version monotonicity,
falsy-attribute exclusion, relationship endpoint handling, chunk
regeneration idempotence).
-/

namespace PersonaMate

/-- A Python-like JSON value, as it occurs in documents, payloads and
structured attribute maps (`None`, bools, ints, floats, strings, lists,
dicts). Floats are modelled as rationals; their textual rendering is never
exercised by the verified code paths. -/
inductive PyVal where
  | vNone : PyVal
  | vBool : Bool → PyVal
  | vInt : Int → PyVal
  | vNum : ℚ → PyVal
  | vStr : String → PyVal
  | vList : List PyVal → PyVal
  | vDict : List (String × PyVal) → PyVal
deriving Repr

/-- A Python dict with string keys, in insertion order. -/
abbrev PyDict := List (String × PyVal)

mutual

/-- Python `repr` of a value (used by `str` on containers). -/
def pyRepr : PyVal → String
  | .vNone => "None"
  | .vBool b => if b then "True" else "False"
  | .vInt n => toString n
  | .vNum q => toString q
  | .vStr s => "'" ++ s ++ "'"
  | .vList xs => "[" ++ pyReprElems xs ++ "]"
  | .vDict kvs => "\x7b" ++ pyReprPairs kvs ++ "\x7d"

/-- Comma-separated `repr`s of list elements. -/
def pyReprElems : List PyVal → String
  | [] => ""
  | [x] => pyRepr x
  | x :: y :: xs => pyRepr x ++ ", " ++ pyReprElems (y :: xs)

/-- Comma-separated `repr`s of dict entries. -/
def pyReprPairs : List (String × PyVal) → String
  | [] => ""
  | [kv] => "'" ++ kv.1 ++ "': " ++ pyRepr kv.2
  | kv :: p :: ps => "'" ++ kv.1 ++ "': " ++ pyRepr kv.2 ++ ", " ++ pyReprPairs (p :: ps)

end

/-- Python `str` of a value. -/
def pyStr : PyVal → String
  | .vStr s => s
  | v => pyRepr v

/-- Python truthiness of a value. -/
def truthy : PyVal → Bool
  | .vNone => false
  | .vBool b => b
  | .vInt n => n != 0
  | .vNum q => q != 0
  | .vStr s => s != ""
  | .vList xs => !xs.isEmpty
  | .vDict kvs => !kvs.isEmpty

/-- `d.get(k)` / `d[k]`: first entry with the given key. -/
def dictGet (d : PyDict) (k : String) : Option PyVal :=
  (d.find? (fun kv => kv.1 == k)).map (·.2)

/-- `k in d`. -/
def dictHas (d : PyDict) (k : String) : Bool :=
  (d.find? (fun kv => kv.1 == k)).isSome

/-- `d[k] = v`: update in place when the key exists, append otherwise. -/
def dictSet (d : PyDict) (k : String) (v : PyVal) : PyDict :=
  if dictHas d k then d.map (fun kv => if kv.1 == k then (k, v) else kv)
  else d ++ [(k, v)]

/-- Python dict unpacking `{**a, **b}`: `a`'s entries updated/extended by `b`. -/
def dictMerge (a b : PyDict) : PyDict :=
  b.foldl (fun acc kv => dictSet acc kv.1 kv.2) a

/-- Python `str.title()`: upper-case the first character of every
alphabetic run, lower-case the rest. -/
def pythonTitle (s : String) : String :=
  String.mk ((s.data.foldl (fun (acc : List Char × Bool) c =>
      if c.isAlpha then
        ((if acc.2 then c.toLower else c.toUpper) :: acc.1, true)
      else (c :: acc.1, false))
    ([], false)).1.reverse)

/-- `key.replace('_', ' ').title()`, the attribute-label formatting used by
the chunk generator. -/
def formatKey (k : String) : String :=
  pythonTitle (k.replace "_" " ")

/-! ## ChunkGenerator (`src/python/utils/chunk_generator.py`) -/

/-- `EmbeddingChunk` dataclass. -/
structure EmbeddingChunk where
  text : String
  chunk_type : String
  entity_id : String
  doc_id : String
  attribute_name : Option String := none
  metadata : Option PyDict := none
deriving Repr

/-- `ChunkGenerator.ATTRIBUTE_GROUPS`: group name → attribute synonyms, in
source order. -/
def ATTRIBUTE_GROUPS : List (String × List String) :=
  [("identity", ["name", "full_name", "first_name", "last_name", "title", "role"]),
   ("skills", ["skills", "expertise", "technologies", "tools", "languages"]),
   ("experience", ["experience", "years_experience", "positions", "roles"]),
   ("education", ["education", "degrees", "certifications", "qualifications"]),
   ("location", ["location", "city", "country", "region", "address"]),
   ("contact", ["email", "phone", "website", "linkedin", "github"]),
   ("organization", ["company", "organization", "employer", "team", "department"]),
   ("projects", ["projects", "portfolio", "achievements", "contributions"])]

/-- The lines contributed by one structured entry in
`ChunkGenerator._format_structured_data` (a list renders comma-joined when
non-empty, a dict flattens to one line per sub-key, a non-`None` scalar with
non-blank `str` renders on one line, everything else is skipped). -/
def structuredEntryLines : String × PyVal → List String
  | (k, .vList xs) =>
      if xs.isEmpty then [] else
        [formatKey k ++ ": " ++ String.intercalate ", " (xs.map pyStr)]
  | (k, .vDict kvs) =>
      kvs.map (fun sv => formatKey k ++ " - " ++ sv.1 ++ ": " ++ pyStr sv.2)
  | (_, .vNone) => []
  | (k, v) =>
      if (pyStr v).trim == "" then [] else [formatKey k ++ ": " ++ pyStr v]

/-- `ChunkGenerator._format_structured_data`. -/
def format_structured_data (structured : PyDict) : String :=
  String.intercalate "\n" (structured.map structuredEntryLines).flatten

/-- One line of `ChunkGenerator._format_attribute_group` for a group entry. -/
def groupEntryLine : String × PyVal → String
  | (a, .vList xs) => formatKey a ++ ": " ++ String.intercalate ", " (xs.map pyStr)
  | (a, .vDict kvs) =>
      formatKey a ++ ": " ++
        String.intercalate ", " (kvs.map (fun kv => kv.1 ++ ": " ++ pyStr kv.2))
  | (a, v) => formatKey a ++ ": " ++ pyStr v

/-- `ChunkGenerator._format_attribute_group`. -/
def format_attribute_group (group_name : String) (group_data : PyDict)
    (entity_name : String) : String :=
  String.intercalate "\n"
    ((entity_name ++ " - " ++ pythonTitle group_name ++ ":") :: group_data.map groupEntryLine)

/-- `ChunkGenerator._format_single_attribute`. -/
def format_single_attribute (attr_name : String) (attr_value : PyVal)
    (entity_name : String) : String :=
  entity_name ++ " - " ++ formatKey attr_name ++ ": " ++
    (match attr_value with
     | .vList xs => String.intercalate ", " (xs.map pyStr)
     | .vDict kvs => String.intercalate ", " (kvs.map (fun kv => kv.1 ++ ": " ++ pyStr kv.2))
     | v => pyStr v)

/-- The `group_data` dict collected for one attribute group: the synonyms
present in `structured_data`, in synonym order, with no truthiness check. -/
def group_data_for (structured_data : PyDict) (group_attrs : List String) : PyDict :=
  group_attrs.filterMap (fun a => (dictGet structured_data a).map (fun v => (a, v)))

/-- The `processed_attrs` set after the grouping pass: every synonym of any
group that occurs as a key of `structured_data`. -/
def processed_attrs (structured_data : PyDict) : List String :=
  ((ATTRIBUTE_GROUPS.map Prod.snd).flatten).filter (fun a => dictHas structured_data a)

/-- `ChunkGenerator.create_attribute_chunks`. -/
def create_attribute_chunks (entity_id doc_id : String) (structured_data : PyDict)
    (entity_name : String) (group_attributes : Bool) : List EmbeddingChunk :=
  let groupChunks : List EmbeddingChunk :=
    if group_attributes then
      ATTRIBUTE_GROUPS.filterMap (fun g =>
        let gd := group_data_for structured_data g.2
        if gd.isEmpty then none
        else some
          { text := format_attribute_group g.1 gd entity_name
            chunk_type := "attribute"
            entity_id := entity_id
            doc_id := doc_id
            attribute_name := some g.1
            metadata := some
              [("entity_name", .vStr entity_name),
               ("attribute_group", .vStr g.1),
               ("attributes", .vList (gd.map (fun kv => .vStr kv.1))),
               ("source", .vStr "structured_data")] })
    else []
  let processed : List String :=
    if group_attributes then processed_attrs structured_data else []
  let indiv : List EmbeddingChunk :=
    (structured_data.filter (fun av => !processed.contains av.1 && truthy av.2)).map
      (fun av =>
        { text := format_single_attribute av.1 av.2 entity_name
          chunk_type := "attribute"
          entity_id := entity_id
          doc_id := doc_id
          attribute_name := some av.1
          metadata := some
            [("entity_name", .vStr entity_name),
             ("attribute_name", .vStr av.1),
             ("source", .vStr "structured_data")] })
  groupChunks ++ indiv

/-! ## DocumentStore (`src/python/utils/mongo_store.py`) -/

/-- An entity document as stored by `MongoStore` (after `get_document`
strips `_id`). An absent `structured` field is modelled as `[]`: the code
only ever reads it through `.get("structured", {})` followed by truthiness
checks, under which absence and `{}` coincide. -/
structure Document where
  entity_id : String
  entity_type : String
  entity_name : String
  content : PyDict
  structured : PyDict
  text : Option String
  metadata : PyDict
  version : Option Nat
deriving Repr

/-- The document collection, in insertion order (`entity_id` is unique). -/
abbrev MongoState := List Document

/-- `MongoStore.get_document`. -/
def get_document (st : MongoState) (entity_id : String) : Option Document :=
  st.find? (fun d => d.entity_id == entity_id)

/-- The document produced by a successful `MongoStore.update_document`
(which can only happen when no `metadata` argument was passed — see
`update_document`): `content`/`structured` are merged or replaced
according to `merge`, `metadata.updated_at` is set to `now` by the dotted
`$set` path, `version` is `existing.get("version", 1) + 1`. -/
def updated_document (existing : Document)
    (content structured : Option PyDict) (text : Option String)
    (merge : Bool) (now : String) : Document :=
  { existing with
    content :=
      match content with
      | some c => if merge then dictMerge existing.content c else c
      | none => existing.content
    structured :=
      match structured with
      | some s => if merge then dictMerge existing.structured s else s
      | none => existing.structured
    text :=
      match text with
      | some t => some t
      | none => existing.text
    metadata := dictSet existing.metadata "updated_at" (.vStr now)
    version := some (existing.version.getD 1 + 1) }

/-- `MongoStore.update_document`: returns `False` when the document is
absent (checked before any write). The built update dict always `$set`s
`"metadata.updated_at"`; when a `metadata` argument is passed it also
`$set`s `"metadata"`, and MongoDB rejects a `$set` containing both a path
and its prefix as conflicting update paths, so `update_one` raises a
`WriteError` and stores nothing — the `error` branch. Otherwise the
update is applied and reported (it always modifies at least `version`). -/
def update_document (st : MongoState) (entity_id : String)
    (content structured : Option PyDict) (text : Option String)
    (metadata : Option PyDict) (merge : Bool) (now : String) :
    Except String (Bool × MongoState) :=
  match get_document st entity_id with
  | none => .ok (false, st)
  | some existing =>
      match metadata with
      | some _ => .error "conflicting update paths metadata and metadata.updated_at"
      | none =>
          let nd := updated_document existing content structured text merge now
          .ok (true, st.map (fun d => if d.entity_id == entity_id then nd else d))

/-- The version recorded for an entity, when its document exists. -/
def doc_version (st : MongoState) (entity_id : String) : Option Nat :=
  (get_document st entity_id).bind (fun d => d.version)

/-! ## VectorStore (`src/python/utils/vector_store.py`) -/

/-- A Qdrant point: point id (the chunk id) and its payload. -/
structure VPoint where
  pid : String
  payload : PyDict
deriving Repr

/-- The vector collection, in upsert order. Embedding vectors are not
modelled: no verified property depends on them. -/
structure VectorState where
  points : List VPoint
deriving Repr

/-- Whether a payload holds the given string under the given key. -/
def payloadStrIs (p : PyDict) (k v : String) : Bool :=
  match dictGet p k with
  | some (.vStr s) => s == v
  | _ => false

/-- The Qdrant filter used by `get_entity_chunks`/`delete_entity_chunks`:
match on `entity_id` and optionally on `chunk_type`. -/
def point_matches (p : VPoint) (entity_id : String) (chunk_type : Option String) : Bool :=
  payloadStrIs p.payload "entity_id" entity_id &&
    (match chunk_type with
     | some ct => payloadStrIs p.payload "chunk_type" ct
     | none => true)

/-- One `scroll` page: the matching points, capped at `limit=100`. -/
def scroll_page (st : VectorState) (entity_id : String) (chunk_type : Option String) :
    List VPoint :=
  (st.points.filter (fun p => point_matches p entity_id chunk_type)).take 100

/-- `VectorStore.get_entity_chunks` (each returned dict is a projection of
the point's payload; we return the payloads, which determine it). -/
def get_entity_chunks (st : VectorState) (entity_id : String)
    (chunk_type : Option String) : List PyDict :=
  (scroll_page st entity_id chunk_type).map (·.payload)

/-- `VectorStore.delete_entity_chunks`: deletes the point ids of one scroll
page and returns how many ids that page held. -/
def delete_entity_chunks (st : VectorState) (entity_id : String)
    (chunk_type : Option String) : VectorState × Nat :=
  let point_ids := (scroll_page st entity_id chunk_type).map (·.pid)
  (⟨st.points.filter (fun p => !point_ids.contains p.pid)⟩, point_ids.length)

/-- One element of the `chunk_dicts` list the pipeline hands to
`add_chunks_batch`. `attribute_name = none` models the key being absent;
the pipeline always supplies the `metadata` key. -/
structure ChunkDict where
  chunk_id : String
  entity_id : String
  doc_id : String
  chunk_type : String
  text : String
  attribute_name : Option String
  metadata : PyDict
deriving Repr

/-- The payload built for one chunk in `VectorStore.add_chunks_batch`: the
fixed fields, the optional `attribute_name`, then `payload.update(metadata)`. -/
def chunk_payload (c : ChunkDict) (now : String) : PyDict :=
  dictMerge
    ([("chunk_id", .vStr c.chunk_id), ("entity_id", .vStr c.entity_id),
      ("doc_id", .vStr c.doc_id), ("chunk_type", .vStr c.chunk_type),
      ("text", .vStr c.text), ("created_at", .vStr now)]
      ++ (match c.attribute_name with
          | some a => [("attribute_name", .vStr a)]
          | none => []))
    c.metadata

/-- Qdrant upsert: replace the point with the same id in place, append new
ids in order. -/
def upsert_points (pts : List VPoint) (new : List VPoint) : List VPoint :=
  new.foldl (fun acc p =>
    if acc.any (fun q => q.pid == p.pid) then
      acc.map (fun q => if q.pid == p.pid then p else q)
    else acc ++ [p]) pts

/-- `VectorStore.add_chunks_batch`. -/
def add_chunks_batch (st : VectorState) (chunks : List ChunkDict) (now : String) :
    VectorState × List String :=
  let points := chunks.map (fun c => VPoint.mk c.chunk_id (chunk_payload c now))
  (⟨upsert_points st.points points⟩, chunks.map (·.chunk_id))

/-! ## GraphStore (`src/python/utils/neo4j_graph.py`) -/

/-- A Neo4j `Entity` node: unique id plus its property map. -/
structure GNode where
  id : String
  props : PyDict
deriving Repr

/-- A typed relationship; `(src, tgt, rel_type)` identifies the edge under
Cypher `MERGE`. -/
structure GEdge where
  src : String
  tgt : String
  rel_type : String
  props : PyDict
deriving Repr

/-- The Neo4j graph restricted to `Entity` nodes and typed edges. -/
structure GraphState where
  nodes : List GNode
  edges : List GEdge
deriving Repr

/-- `Neo4jGraph.add_entity`: `MERGE` on the id, then `SET` every passed
property (existing properties not passed are preserved). -/
def add_entity (g : GraphState) (entity_id entity_type name : String)
    (properties : PyDict) (now : String) : GraphState :=
  let props : PyDict :=
    dictMerge
      [("id", .vStr entity_id), ("type", .vStr entity_type),
       ("name", .vStr name), ("created_at", .vStr now)]
      properties
  if g.nodes.any (fun n => n.id == entity_id) then
    { g with nodes := g.nodes.map (fun n =>
        if n.id == entity_id then ⟨n.id, dictMerge n.props props⟩ else n) }
  else
    { g with nodes := g.nodes ++ [⟨entity_id, props⟩] }

/-- `Neo4jGraph.add_relationship`: `MATCH` both endpoints, `MERGE` the
`(source, target, rel_type)` edge and `SET` its properties. When either
endpoint does not match, the query touches nothing and `result.single()`
yields `None` — modelled as `(g, none)` with no error channel. -/
def add_relationship (g : GraphState) (source_id target_id rel_type : String)
    (source : String) (confidence : ℚ) (properties : PyDict) (now : String) :
    GraphState × Option GEdge :=
  let rel_props : PyDict :=
    (dictMerge
      [("source_id", .vStr source_id), ("target_id", .vStr target_id),
       ("source", .vStr source), ("confidence", .vNum confidence),
       ("created_at", .vStr now), ("updated_at", .vStr now)]
      properties).filter (fun kv => kv.1 != "source_id" && kv.1 != "target_id")
  if g.nodes.any (fun n => n.id == source_id) && g.nodes.any (fun n => n.id == target_id) then
    match g.edges.find? (fun e =>
        e.src == source_id && e.tgt == target_id && e.rel_type == rel_type) with
    | some e0 =>
        let e1 : GEdge := { e0 with props := dictMerge e0.props rel_props }
        ({ g with edges := g.edges.map (fun e =>
            if e.src == source_id && e.tgt == target_id && e.rel_type == rel_type
            then { e with props := dictMerge e.props rel_props } else e) },
         some e1)
    | none =>
        let e : GEdge := ⟨source_id, target_id, rel_type, rel_props⟩
        ({ g with edges := g.edges ++ [e] }, some e)
  else (g, none)

/-- `Neo4jGraph.get_entity`. -/
def get_entity (g : GraphState) (entity_id : String) : Option PyDict :=
  (g.nodes.find? (fun n => n.id == entity_id)).map (·.props)

/-! ## EmbeddingPipeline (`src/python/utils/embedding_pipeline.py`) -/

/-- The three stores the pipeline orchestrates. -/
structure PipelineState where
  mongo : MongoState
  graph : GraphState
  vector : VectorState
deriving Repr

/-- The result dict of `EmbeddingPipeline.process_entity`. -/
structure ProcessStats where
  entity_id : String
  chunk_ids : List String
  chunk_count : Nat
  global_chunks : Nat
  attribute_chunks : Nat
  used_llm : Bool
deriving Repr, DecidableEq

/-- `ChunkGenerator.create_global_chunk`'s deterministic text template
(used when no summary is supplied): name/type header, narrative text,
formatted structured data, long string content fields. -/
def global_chunk_text (document : Document) : String :=
  String.intercalate "\n"
    ([document.entity_name ++ " (" ++ document.entity_type ++ ")"]
      ++ (match document.text with
          | some t => if t == "" then [] else [t]
          | none => [])
      ++ (if document.structured.isEmpty then []
          else [format_structured_data document.structured])
      ++ document.content.filterMap (fun kv =>
          match kv.2 with
          | .vStr s => if s.length > 10 then some (pythonTitle kv.1 ++ ": " ++ s) else none
          | _ => none))

/-- `ChunkGenerator.create_global_chunk`. -/
def create_global_chunk (entity_id doc_id : String) (document : Document)
    (summary_text : Option String) : EmbeddingChunk :=
  let text :=
    match summary_text with
    | some s => if s == "" then global_chunk_text document else s
    | none => global_chunk_text document
  { text := text
    chunk_type := "global"
    entity_id := entity_id
    doc_id := doc_id
    attribute_name := none
    metadata := some
      [("entity_name", .vStr document.entity_name),
       ("entity_type", .vStr document.entity_type),
       ("source", .vStr "global_summary")] }

/-- `ChunkGenerator.generate_all_chunks`. -/
def generate_all_chunks (entity_id doc_id : String) (document : Document)
    (include_global include_attributes group_attributes : Bool)
    (global_summary : Option String) : List EmbeddingChunk :=
  (if include_global then [create_global_chunk entity_id doc_id document global_summary]
   else [])
  ++ (if include_attributes && !document.structured.isEmpty then
        create_attribute_chunks entity_id doc_id document.structured
          document.entity_name group_attributes
      else [])

/-- Conversion of one generated chunk to the dict handed to
`add_chunks_batch` (the `attribute_name` key is set only when the field is
truthy; `metadata` falls back to `{}`). -/
def chunk_to_dict (c : EmbeddingChunk) (chunk_id : String) : ChunkDict :=
  { chunk_id := chunk_id
    entity_id := c.entity_id
    doc_id := c.doc_id
    chunk_type := c.chunk_type
    text := c.text
    attribute_name :=
      match c.attribute_name with
      | some a => if a == "" then none else some a
      | none => none
    metadata := c.metadata.getD [] }

/-- `EmbeddingPipeline._update_neo4j_metadata`: best-effort refresh of the
entity node with `embeddings_generated` and the chunk count. -/
def update_neo4j_metadata (g : GraphState) (entity_id : String) (chunk_count : Nat)
    (now : String) : GraphState :=
  match get_entity g entity_id with
  | none => g
  | some props =>
      add_entity g entity_id
        (match dictGet props "type" with | some (.vStr t) => t | _ => "Entity")
        (match dictGet props "name" with | some (.vStr s) => s | _ => "Unknown")
        [("embeddings_generated", .vBool true),
         ("embedding_chunk_count", .vInt (Int.ofNat chunk_count))]
        now

/-- `EmbeddingPipeline.process_entity`. `llm_summary` stands for the value
the external summarizer returned (`none` on failure or when disabled);
`gen i` stands for the `uuid4()` drawn for the `i`-th chunk; `now` for the
wall clock. Raising `ValueError` on a missing document is the `error`
branch. -/
def process_entity (st : PipelineState) (entity_id : String)
    (generate_global generate_attributes force_regenerate : Bool)
    (use_llm_summaries : Bool) (llm_summary : Option String)
    (gen : Nat → String) (now : String) :
    Except String (PipelineState × ProcessStats) :=
  match get_document st.mongo entity_id with
  | none => .error ("Entity " ++ entity_id ++ " not found in MongoDB")
  | some document =>
      let doc_id := entity_id
      let vec1 :=
        if force_regenerate then (delete_entity_chunks st.vector entity_id none).1
        else st.vector
      let global_summary :=
        if generate_global && use_llm_summaries then llm_summary else none
      let chunks :=
        generate_all_chunks entity_id doc_id document generate_global
          generate_attributes true global_summary
      let chunk_dicts := chunks.enum.map (fun ic => chunk_to_dict ic.2 (gen ic.1))
      let batch := add_chunks_batch vec1 chunk_dicts now
      let graph2 := update_neo4j_metadata st.graph entity_id batch.2.length now
      .ok ({ mongo := st.mongo, graph := graph2, vector := batch.1 },
        { entity_id := entity_id
          chunk_ids := batch.2
          chunk_count := batch.2.length
          global_chunks := chunks.countP (fun c => c.chunk_type == "global")
          attribute_chunks := chunks.countP (fun c => c.chunk_type == "attribute")
          used_llm := use_llm_summaries })

/-- One hit of `VectorStore.search_chunks`, as consumed by
`search_similar_entities`. -/
structure SearchHit where
  entity_id : String
  score : ℚ
  chunk_type : String
  attribute_name : Option String
  text : String
deriving Repr, DecidableEq

/-- One element of the list `search_similar_entities` returns. -/
structure SearchResult where
  entity_id : String
  entity_name : String
  entity_type : String
  score : ℚ
  matched_chunk : String
  matched_attribute : Option String
  matched_text : String
deriving Repr, DecidableEq

/-- One iteration of the `entity_results` grouping loop: keep the first hit
per entity, replacing it in place when a strictly higher score arrives. -/
def dedupe_step (acc : List (String × SearchHit)) (r : SearchHit) :
    List (String × SearchHit) :=
  match acc.find? (fun kv => kv.1 == r.entity_id) with
  | none => acc ++ [(r.entity_id, r)]
  | some kv =>
      if kv.2.score < r.score then
        acc.map (fun kv2 => if kv2.1 == r.entity_id then (r.entity_id, r) else kv2)
      else acc

/-- The `entity_results` dict after the grouping loop, as an insertion-order
association list. -/
def dedupe_by_entity (hits : List SearchHit) : List (String × SearchHit) :=
  hits.foldl dedupe_step []

/-- The enrichment step: entities whose document is gone are dropped
(`if doc:`), the rest are joined with the document's name/type. -/
def enrich (mongo : MongoState) (kv : String × SearchHit) : Option SearchResult :=
  match get_document mongo kv.1 with
  | none => none
  | some doc => some
      { entity_id := kv.1
        entity_name := doc.entity_name
        entity_type := doc.entity_type
        score := kv.2.score
        matched_chunk := kv.2.chunk_type
        matched_attribute := kv.2.attribute_name
        matched_text := kv.2.text.take 200 ++ "..." }

/-- `EmbeddingPipeline.search_similar_entities`. `search_fn` stands for
`self.vector.search_chunks` applied to `(query, chunk_type, limit)` — the
only arguments the pipeline passes; `entity_type` is accepted and never
read, exactly as in the source. -/
def search_similar_entities (mongo : MongoState)
    (search_fn : String → Option String → Nat → List SearchHit)
    (query : String) (entity_type : Option String)
    (search_global_only : Bool) (limit : Nat) : List SearchResult :=
  let chunk_type := if search_global_only then some "global" else none
  let results := search_fn query chunk_type limit
  (dedupe_by_entity results).filterMap (enrich mongo)

/-! ## Concrete test fixtures -/

/-- A stored chunk point for entity `e1`, used to build large collections. -/
def testPoint (i : Nat) : VPoint :=
  ⟨"c" ++ toString i,
   [("chunk_id", .vStr ("c" ++ toString i)), ("entity_id", .vStr "e1"),
    ("chunk_type", .vStr "attribute"), ("text", .vStr "x")]⟩

/-- A vector store holding 101 chunks for entity `e1` — one more than a
single scroll page. -/
def vec101 : VectorState := ⟨(List.range 101).map testPoint⟩

/-- A minimal document for `e1` (no structured data, no text). -/
def doc_e1_plain : Document :=
  ⟨"e1", "Person", "Alice", [], [], none, [("created_at", .vStr "t0")], some 1⟩

/-- A document for `e1` carrying existing metadata key `"a"`. -/
def doc_e1_meta : Document :=
  ⟨"e1", "Person", "Alice", [], [("title", .vStr "Eng")], none, [("a", .vStr "x")], some 1⟩

end PersonaMate

namespace PersonaMate

/-! ## Generic helper lemmas -/

theorem mem_unique_of_nodup_map {α β : Type _} {f : α → β} {l : List α}
    (hnd : (l.map f).Nodup) {a b : α} (ha : a ∈ l) (hb : b ∈ l) (hf : f a = f b) :
    a = b := by
  induction l with
  | nil => cases ha
  | cons x t ih =>
    rw [List.map_cons, List.nodup_cons] at hnd
    rcases List.mem_cons.mp ha with rfl | ha' <;>
      rcases List.mem_cons.mp hb with rfl | hb'
    · rfl
    · exact absurd (hf ▸ List.mem_map_of_mem f hb') hnd.1
    · exact absurd (hf ▸ List.mem_map_of_mem f ha') (by simpa [hf] using hnd.1)
    · exact ih hnd.2 ha' hb'

/-! ## Dict lemmas -/

theorem dictHas_iff_mem (d : PyDict) (k : String) :
    dictHas d k = true ↔ k ∈ d.map Prod.fst := by
  induction d with
  | nil => simp [dictHas]
  | cons kv t ih =>
    by_cases h : kv.1 = k
    · simp only [dictHas, List.map_cons]
      rw [List.find?_cons_of_pos _ (by simp [h])]
      simp [h]
    · simp only [dictHas, List.map_cons]
      rw [List.find?_cons_of_neg _ (by simp [h])]
      have hne : k ≠ kv.1 := fun hk => h hk.symm
      simpa [List.mem_cons, hne] using ih

theorem dictGet_eq_none_iff (d : PyDict) (k : String) :
    dictGet d k = none ↔ k ∉ d.map Prod.fst := by
  rw [← dictHas_iff_mem]
  simp only [dictGet, dictHas]
  cases hf : d.find? (fun kv => kv.1 == k) <;> simp

theorem dictGet_cons_self {kv : String × PyVal} {t : PyDict} {k : String}
    (h : kv.1 = k) : dictGet (kv :: t) k = some kv.2 := by
  simp only [dictGet]
  rw [List.find?_cons_of_pos _ (by simp [h])]
  rfl

theorem dictGet_cons_ne {kv : String × PyVal} {t : PyDict} {k : String}
    (h : kv.1 ≠ k) : dictGet (kv :: t) k = dictGet t k := by
  simp only [dictGet]
  rw [List.find?_cons_of_neg _ (by simp [h])]

theorem dictGet_append_of_none {d : PyDict} {k : String} (e : PyDict)
    (h : dictGet d k = none) : dictGet (d ++ e) k = dictGet e k := by
  induction d with
  | nil => rfl
  | cons kv t ih =>
    by_cases hk : kv.1 = k
    · rw [dictGet_cons_self hk] at h
      cases h
    · rw [dictGet_cons_ne hk] at h
      rw [List.cons_append, dictGet_cons_ne hk]
      exact ih h

theorem dictGet_mapSet_of_mem (d : PyDict) (k : String) (v : PyVal)
    (h : k ∈ d.map Prod.fst) :
    dictGet (d.map (fun kv => if kv.1 == k then (k, v) else kv)) k = some v := by
  induction d with
  | nil => cases h
  | cons kv t ih =>
    by_cases hk : kv.1 = k
    · have hc : (kv.1 == k) = true := by simp [hk]
      rw [List.map_cons, if_pos hc]
      exact dictGet_cons_self rfl
    · have hc : ¬((kv.1 == k) = true) := by simp [hk]
      rw [List.map_cons, if_neg hc, dictGet_cons_ne hk]
      refine ih ?_
      rw [List.map_cons, List.mem_cons] at h
      rcases h with h | h
      · exact absurd h.symm hk
      · exact h

theorem dictGet_mapSet_ne (d : PyDict) (k : String) (v : PyVal) (k' : String)
    (h : k' ≠ k) :
    dictGet (d.map (fun kv => if kv.1 == k then (k, v) else kv)) k' = dictGet d k' := by
  induction d with
  | nil => rfl
  | cons kv t ih =>
    by_cases hk : kv.1 = k
    · have hc : (kv.1 == k) = true := by simp [hk]
      rw [List.map_cons, if_pos hc]
      rw [dictGet_cons_ne (show (k, v).1 ≠ k' from fun he => h he.symm)]
      rw [dictGet_cons_ne (show kv.1 ≠ k' from by rw [hk]; exact fun he => h he.symm)]
      exact ih
    · have hc : ¬((kv.1 == k) = true) := by simp [hk]
      rw [List.map_cons, if_neg hc]
      by_cases hk' : kv.1 = k'
      · rw [dictGet_cons_self hk', dictGet_cons_self hk']
      · rw [dictGet_cons_ne hk', dictGet_cons_ne hk']
        exact ih

theorem dictGet_dictSet_self (d : PyDict) (k : String) (v : PyVal) :
    dictGet (dictSet d k v) k = some v := by
  unfold dictSet
  by_cases h : dictHas d k
  · rw [if_pos h]
    exact dictGet_mapSet_of_mem d k v ((dictHas_iff_mem d k).mp h)
  · rw [if_neg h]
    have hn : dictGet d k = none := by
      rw [dictGet_eq_none_iff]
      intro hm
      exact h ((dictHas_iff_mem d k).mpr hm)
    rw [dictGet_append_of_none _ hn]
    exact dictGet_cons_self rfl

theorem dictGet_append_single_ne (d : PyDict) (k : String) (v : PyVal) (k' : String)
    (h : k' ≠ k) : dictGet (d ++ [(k, v)]) k' = dictGet d k' := by
  induction d with
  | nil => exact dictGet_cons_ne (fun he => h he.symm)
  | cons kv t ih =>
    by_cases hk' : kv.1 = k'
    · rw [List.cons_append, dictGet_cons_self hk', dictGet_cons_self hk']
    · rw [List.cons_append, dictGet_cons_ne hk', dictGet_cons_ne hk']
      exact ih

theorem dictGet_dictSet_ne (d : PyDict) (k : String) (v : PyVal) (k' : String)
    (h : k' ≠ k) : dictGet (dictSet d k v) k' = dictGet d k' := by
  unfold dictSet
  by_cases hh : dictHas d k
  · rw [if_pos hh]
    exact dictGet_mapSet_ne d k v k' h
  · rw [if_neg hh]
    exact dictGet_append_single_ne d k v k' h

theorem dictGet_foldlSet_not_mem (b : PyDict) (acc : PyDict) (k : String)
    (h : k ∉ b.map Prod.fst) :
    dictGet (b.foldl (fun a kv => dictSet a kv.1 kv.2) acc) k = dictGet acc k := by
  induction b generalizing acc with
  | nil => rfl
  | cons kv t ih =>
    rw [List.map_cons] at h
    simp only [List.mem_cons, not_or] at h
    rw [List.foldl_cons, ih _ h.2]
    exact dictGet_dictSet_ne acc kv.1 kv.2 k h.1

theorem dictGet_dictMerge_of_not_mem (a b : PyDict) (k : String)
    (h : k ∉ b.map Prod.fst) :
    dictGet (dictMerge a b) k = dictGet a k :=
  dictGet_foldlSet_not_mem b a k h

theorem dictGet_dictMerge_of_mem (a b : PyDict) (k : String) (w : PyVal)
    (hnd : (b.map Prod.fst).Nodup) (hmem : (k, w) ∈ b) :
    dictGet (dictMerge a b) k = some w := by
  unfold dictMerge
  induction b generalizing a with
  | nil => cases hmem
  | cons kv t ih =>
    rw [List.map_cons, List.nodup_cons] at hnd
    rcases List.mem_cons.mp hmem with heq | hmem'
    · rw [List.foldl_cons]
      have hk : k ∉ t.map Prod.fst := by
        rw [← heq] at hnd
        exact hnd.1
      rw [dictGet_foldlSet_not_mem t _ k hk, ← heq]
      exact dictGet_dictSet_self a k w
    · rw [List.foldl_cons]
      exact ih _ hnd.2 hmem'

/-! ## C7: update on a missing document -/

/-- C7: for every `entity_id` without a document, `update_document` returns
`False` and leaves the store state unchanged — nothing is created, nothing
is modified, and no error is raised (the existence check precedes the
write, so even a metadata-passing call never reaches the conflicting
`$set`). -/
theorem update_document_missing_noop (st : MongoState) (entity_id : String)
    (content structured : Option PyDict) (text : Option String)
    (metadata : Option PyDict) (merge : Bool) (now : String)
    (h : get_document st entity_id = none) :
    update_document st entity_id content structured text metadata merge now
      = .ok (false, st) := by
  unfold update_document
  rw [h]

/-- Witness for C7: `e2` has no document in a store holding only `e1`. -/
theorem update_document_missing_noop_witness :
    get_document [doc_e1_plain] "e2" = none ∧
    update_document [doc_e1_plain] "e2" none none none none true "t9"
      = .ok (false, [doc_e1_plain]) :=
  ⟨rfl, update_document_missing_noop [doc_e1_plain] "e2" none none none none true "t9" rfl⟩

/-! ## C10: the entity_type argument is dead -/

/-- C10: `search_similar_entities` never reads its `entity_type` argument,
so any value produces exactly the result of passing `None`. -/
theorem search_similar_entities_ignores_entity_type (mongo : MongoState)
    (search_fn : String → Option String → Nat → List SearchHit)
    (query : String) (entity_type : Option String) (search_global_only : Bool)
    (limit : Nat) :
    search_similar_entities mongo search_fn query entity_type search_global_only limit =
      search_similar_entities mongo search_fn query none search_global_only limit := rfl

/-! ## C2: falsy attributes under grouping -/

/-- C2 counterexample: on the spec's own example
`structured_data = \x7b"skills": [], "title": "Engineer"\x7d` (grouped, the
default), the code emits an `identity` group chunk for `title` *and* a
`skills` group chunk for the empty list — the falsy `skills` attribute is
not excluded, because the grouping pass collects attributes without any
truthiness check. -/
theorem create_attribute_chunks_empty_skills_counterexample :
    (create_attribute_chunks "e1" "d1" [("skills", .vList []), ("title", .vStr "Engineer")]
        "Alice" true).map (fun c => c.attribute_name)
      = [some "identity", some "skills"] := rfl

/-! ## C3: add_relationship with missing endpoints -/

/-- C3 counterexample: on an empty graph, `add_relationship` raises nothing
and reports nothing — the Cypher `MATCH` finds no endpoint rows, the write
is skipped, and `result.single()` hands the caller a plain `None`. -/
theorem add_relationship_missing_endpoint_silent :
    add_relationship ⟨[], []⟩ "person:a" "person:b" "KNOWS" "user_input" 1 [] "t1"
      = (⟨[], []⟩, none) := rfl

/-! ## C4: delete_entity_chunks caps at one scroll page -/

/-- C4: on a store holding 101 chunks for `e1`, `delete_entity_chunks`
deletes only the 100 points of its single scroll page and returns 100; one
chunk survives and `get_entity_chunks` still returns it. -/
theorem delete_entity_chunks_page_limit :
    (delete_entity_chunks vec101 "e1" none).2 = 100 ∧
    (get_entity_chunks (delete_entity_chunks vec101 "e1" none).1 "e1" none).length = 1 :=
  ⟨rfl, rfl⟩

/-! ## C6 counterexample: metadata updates hit a conflicting-path error -/

/-- C6 counterexample: `update_document(..., metadata=\x7b"b": "y"\x7d,
merge=False)` on an existing document does not replace (or merge) the
stored metadata at all — the update dict `$set`s both `metadata` and
`metadata.updated_at`, which MongoDB rejects as conflicting update paths,
so the call raises a `WriteError` and stores nothing. -/
theorem update_document_metadata_not_replaced :
    update_document [doc_e1_meta] "e1" none none none
        (some [("b", .vStr "y")]) false "t1"
      = .error "conflicting update paths metadata and metadata.updated_at" := rfl

/-! ## C8 counterexample: stale chunks survive force_regenerate -/

/-- C8 counterexample: for an entity holding 101 stored chunks,
`process_entity` with `force_regenerate=True` generates (and counts) 1
chunk, but the store afterwards holds 2 chunks for the entity — the
delete pass only removed one 100-point scroll page, so the stored chunks
are not exactly the generated ones. -/
theorem process_entity_leftover_chunks_counterexample :
    (process_entity ⟨[doc_e1_plain], ⟨[], []⟩, vec101⟩ "e1" true true true false none
        (fun i => "fresh-" ++ toString i) "t1").map
      (fun r => (r.2.chunk_count,
        (r.1.vector.points.filter (fun p => point_matches p "e1" none)).length))
      = Except.ok (1, 2) := rfl

/-! ## DocumentStore update lemmas (C5, C6) -/

theorem dictGet_some_mem {b : PyDict} {k : String} {w : PyVal}
    (h : dictGet b k = some w) : (k, w) ∈ b := by
  unfold dictGet at h
  cases hf : b.find? (fun kv => kv.1 == k) with
  | none => rw [hf] at h; cases h
  | some kv =>
    rw [hf] at h
    have hk : kv.1 = k := by simpa using List.find?_some hf
    have hw : kv.2 = w := by simpa using h
    have : kv = (k, w) := by
      rw [← hk, ← hw]
    exact this ▸ List.mem_of_find?_eq_some hf

theorem get_document_entity_id {st : MongoState} {eid : String} {d : Document}
    (h : get_document st eid = some d) : d.entity_id = eid := by
  unfold get_document at h
  simpa using List.find?_some h

theorem get_document_map_replace (st : MongoState) (eid : String) (nd : Document)
    (hnd : nd.entity_id = eid) (hsome : (get_document st eid).isSome) :
    get_document (st.map (fun x => if x.entity_id == eid then nd else x)) eid = some nd := by
  induction st with
  | nil => simp [get_document] at hsome
  | cons d t ih =>
    by_cases h : d.entity_id = eid
    · rw [List.map_cons, if_pos (show (d.entity_id == eid) = true by simp [h])]
      unfold get_document
      rw [List.find?_cons_of_pos _ (by simp [hnd])]
    · rw [List.map_cons, if_neg (show ¬((d.entity_id == eid) = true) by simp [h])]
      unfold get_document at hsome ⊢
      rw [List.find?_cons_of_neg _ (by simp [h])] at hsome ⊢
      exact ih hsome

/-- A metadata-free `update_document` on an existing document succeeds and
stores exactly the updated document. -/
theorem update_document_found (st : MongoState) (eid : String) (d : Document)
    (hd : get_document st eid = some d) (c s : Option PyDict) (t : Option String)
    (mg : Bool) (now : String) :
    update_document st eid c s t none mg now
      = .ok (true, st.map (fun x => if x.entity_id == eid then
          updated_document d c s t mg now else x)) ∧
    get_document (st.map (fun x => if x.entity_id == eid then
        updated_document d c s t mg now else x)) eid
      = some (updated_document d c s t mg now) := by
  constructor
  · simp only [update_document, hd]
  · have hid : d.entity_id = eid := get_document_entity_id hd
    exact get_document_map_replace st eid _ hid (by rw [hd]; rfl)

theorem updated_document_version (d : Document) (c s : Option PyDict)
    (t : Option String) (mg : Bool) (now : String) :
    (updated_document d c s t mg now).version = some (d.version.getD 1 + 1) := rfl

/-- A call that reports success found the document, passed no metadata
(metadata-passing calls raise the conflicting-path error instead), and
left exactly the updated document in the store. -/
theorem update_document_ok_inv (st : MongoState) (eid : String)
    (c s : Option PyDict) (t : Option String) (m : Option PyDict) (mg : Bool)
    (now : String) (st₁ : MongoState)
    (h : update_document st eid c s t m mg now = .ok (true, st₁)) :
    ∃ d, get_document st eid = some d ∧
      get_document st₁ eid = some (updated_document d c s t mg now) := by
  cases hd : get_document st eid with
  | none =>
    simp only [update_document, hd] at h
    rw [Except.ok.injEq, Prod.mk.injEq] at h
    exact absurd h.1 Bool.false_ne_true
  | some d =>
    cases m with
    | some md =>
      simp only [update_document, hd] at h
      cases h
    | none =>
      simp only [update_document, hd] at h
      rw [Except.ok.injEq, Prod.mk.injEq] at h
      refine ⟨d, rfl, ?_⟩
      rw [← h.2]
      exact (update_document_found st eid d hd c s t mg now).2

/-! ## C5: version monotonicity -/

/-- C5: whenever three successive `update_document` calls on the same
entity each report success, each bumps `version` by exactly one, ending at
the initial version plus three — `version` is strictly increasing across
successful updates. -/
theorem update_document_version_plus_three
    (st st₁ st₂ st₃ : MongoState) (eid : String) (d : Document) (v : Nat)
    (c₁ c₂ c₃ s₁ s₂ s₃ : Option PyDict) (t₁ t₂ t₃ : Option String)
    (m₁ m₂ m₃ : Option PyDict) (mg₁ mg₂ mg₃ : Bool) (n₁ n₂ n₃ : String)
    (hd : get_document st eid = some d) (hv : d.version = some v)
    (h₁ : update_document st eid c₁ s₁ t₁ m₁ mg₁ n₁ = .ok (true, st₁))
    (h₂ : update_document st₁ eid c₂ s₂ t₂ m₂ mg₂ n₂ = .ok (true, st₂))
    (h₃ : update_document st₂ eid c₃ s₃ t₃ m₃ mg₃ n₃ = .ok (true, st₃)) :
    doc_version st₁ eid = some (v + 1) ∧
    doc_version st₂ eid = some (v + 2) ∧
    doc_version st₃ eid = some (v + 3) := by
  obtain ⟨e₁, he₁, hg₁⟩ := update_document_ok_inv st eid c₁ s₁ t₁ m₁ mg₁ n₁ st₁ h₁
  rw [hd] at he₁
  injection he₁ with he₁
  subst he₁
  obtain ⟨e₂, he₂, hg₂⟩ := update_document_ok_inv st₁ eid c₂ s₂ t₂ m₂ mg₂ n₂ st₂ h₂
  rw [hg₁] at he₂
  injection he₂ with he₂
  subst he₂
  obtain ⟨e₃, he₃, hg₃⟩ := update_document_ok_inv st₂ eid c₃ s₃ t₃ m₃ mg₃ n₃ st₃ h₃
  rw [hg₂] at he₃
  injection he₃ with he₃
  subst he₃
  refine ⟨?_, ?_, ?_⟩
  · simp only [doc_version, hg₁, Option.bind_some]
    simp [updated_document_version, hv]
  · simp only [doc_version, hg₂, Option.bind_some]
    simp [updated_document_version, hv]
  · simp only [doc_version, hg₃, Option.bind_some]
    simp [updated_document_version, hv]

/-- Witness for C5 on a one-document store starting at version 1. -/
theorem update_document_version_plus_three_witness :
    ∃ st₁ st₂ st₃ : MongoState,
      update_document [doc_e1_plain] "e1" none none none none true "t1"
        = .ok (true, st₁) ∧
      update_document st₁ "e1" none none none none true "t2" = .ok (true, st₂) ∧
      update_document st₂ "e1" none none none none true "t3" = .ok (true, st₃) ∧
      doc_version st₃ "e1" = some 4 := by
  refine ⟨_, _, _, rfl, rfl, rfl, ?_⟩
  exact (update_document_version_plus_three [doc_e1_plain] _ _ _ "e1" doc_e1_plain 1
    none none none none none none none none none none none none true true true
    "t1" "t2" "t3" rfl rfl rfl rfl rfl).2.2

/-! ## C6: merge semantics of update_document -/

/-- C6 amended: with `merge=true`, supplied `content`/`structured` maps are
shallow-merged into the existing ones with new keys winning; with
`merge=false` they are replaced wholesale; `metadata.updated_at` is always
refreshed and the other metadata keys are preserved. The supplied
`metadata` map itself is never applied at all: any call passing `metadata`
fails with MongoDB's conflicting-update-paths `WriteError`, because the
update `$set`s both `metadata` and `metadata.updated_at`. -/
theorem update_document_merge_semantics
    (st : MongoState) (eid : String) (d : Document)
    (c s : PyDict) (t : Option String) (mg : Bool) (now : String)
    (hd : get_document st eid = some d)
    (hc : (c.map Prod.fst).Nodup) (hs : (s.map Prod.fst).Nodup) :
    (∀ m : PyDict, update_document st eid (some c) (some s) t (some m) mg now
      = .error "conflicting update paths metadata and metadata.updated_at") ∧
    ∃ st₁ d', update_document st eid (some c) (some s) t none mg now
        = .ok (true, st₁) ∧
      get_document st₁ eid = some d' ∧
      (mg = true →
        (∀ k w, dictGet c k = some w → dictGet d'.content k = some w) ∧
        (∀ k, dictGet c k = none → dictGet d'.content k = dictGet d.content k) ∧
        (∀ k w, dictGet s k = some w → dictGet d'.structured k = some w) ∧
        (∀ k, dictGet s k = none → dictGet d'.structured k = dictGet d.structured k)) ∧
      (mg = false → d'.content = c ∧ d'.structured = s) ∧
      (∀ k, k ≠ "updated_at" → dictGet d'.metadata k = dictGet d.metadata k) ∧
      dictGet d'.metadata "updated_at" = some (.vStr now) := by
  obtain ⟨hok, hg⟩ := update_document_found st eid d hd (some c) (some s) t mg now
  refine ⟨?_, _, _, hok, hg, ?_, ?_, ?_, ?_⟩
  · intro m
    simp only [update_document, hd]
  · rintro rfl
    refine ⟨?_, ?_, ?_, ?_⟩
    · intro k w hw
      exact dictGet_dictMerge_of_mem d.content c k w hc (dictGet_some_mem hw)
    · intro k hn
      exact dictGet_dictMerge_of_not_mem d.content c k ((dictGet_eq_none_iff c k).mp hn)
    · intro k w hw
      exact dictGet_dictMerge_of_mem d.structured s k w hs (dictGet_some_mem hw)
    · intro k hn
      exact dictGet_dictMerge_of_not_mem d.structured s k ((dictGet_eq_none_iff s k).mp hn)
  · rintro rfl
    exact ⟨rfl, rfl⟩
  · intro k hk
    exact dictGet_dictSet_ne d.metadata "updated_at" (.vStr now) k hk
  · exact dictGet_dictSet_self d.metadata "updated_at" (.vStr now)

/-- Witness for C6 on the spec's structured example (metadata omitted on
the successful path; the error conjunct is exercised at `\x7b"b": "y"\x7d`). -/
theorem update_document_merge_semantics_witness :
    get_document [doc_e1_meta] "e1" = some doc_e1_meta ∧
    ((∀ m : PyDict, update_document [doc_e1_meta] "e1" (some [])
        (some [("skills", .vList [.vStr "Rust"])]) none (some m) true "t1"
      = .error "conflicting update paths metadata and metadata.updated_at") ∧
    ∃ st₁ d', update_document [doc_e1_meta] "e1" (some [])
        (some [("skills", .vList [.vStr "Rust"])]) none none true "t1"
        = .ok (true, st₁) ∧
      get_document st₁ "e1" = some d' ∧
      (true = true →
        (∀ k w, dictGet [] k = some w → dictGet d'.content k = some w) ∧
        (∀ k, dictGet [] k = none → dictGet d'.content k = dictGet doc_e1_meta.content k) ∧
        (∀ k w, dictGet [("skills", .vList [.vStr "Rust"])] k = some w →
          dictGet d'.structured k = some w) ∧
        (∀ k, dictGet [("skills", .vList [.vStr "Rust"])] k = none →
          dictGet d'.structured k = dictGet doc_e1_meta.structured k)) ∧
      (true = false → d'.content = [] ∧
        d'.structured = [("skills", .vList [.vStr "Rust"])]) ∧
      (∀ k, k ≠ "updated_at" → dictGet d'.metadata k = dictGet doc_e1_meta.metadata k) ∧
      dictGet d'.metadata "updated_at" = some (.vStr "t1")) :=
  ⟨rfl,
   update_document_merge_semantics [doc_e1_meta] "e1" doc_e1_meta []
     [("skills", .vList [.vStr "Rust"])] none true "t1"
     rfl (by simp) (by simp)⟩

/-! ## C2 amended: where the falsy-value exclusion actually applies -/

/-- C2 amended: an attribute with a falsy value is never emitted as its own
individually-named chunk — in either grouping mode — provided its name is
not itself one of the fixed group labels (a group chunk always carries the
group's label, and the individual-attribute pass tests truthiness). Falsy
attributes claimed by a group still surface inside that group's chunk, as
the counterexample shows. -/
theorem create_attribute_chunks_falsy_excluded (eid did nm : String) (sd : PyDict)
    (ga : Bool) (a : String) (v : PyVal)
    (hnd : (sd.map Prod.fst).Nodup)
    (hmem : (a, v) ∈ sd) (hfalsy : truthy v = false)
    (hname : a ∉ ATTRIBUTE_GROUPS.map Prod.fst) :
    ∀ c ∈ create_attribute_chunks eid did sd nm ga, c.attribute_name ≠ some a := by
  intro c hc
  simp only [create_attribute_chunks] at hc
  rcases List.mem_append.mp hc with hg | hi
  · split at hg
    · obtain ⟨g, hgmem, hgeq⟩ := List.mem_filterMap.mp hg
      split at hgeq
      · cases hgeq
      · cases hgeq
        intro habs
        have : g.1 = a := by simpa using habs
        exact hname (this ▸ List.mem_map_of_mem Prod.fst hgmem)
    · cases hg
  · obtain ⟨av, havmem, haveq⟩ := List.mem_map.mp hi
    have hfil := List.mem_filter.mp havmem
    have htruthy : truthy av.2 = true := by
      have := hfil.2
      simp only [Bool.and_eq_true] at this
      exact this.2
    cases haveq
    intro habs
    have hav1 : av.1 = a := by simpa using habs
    have : av = (a, v) := mem_unique_of_nodup_map hnd hfil.1 hmem (by simpa using hav1)
    rw [this] at htruthy
    rw [htruthy] at hfalsy
    cases hfalsy

/-- Witness for C2 (amended): the falsy ungrouped attribute `custom_notes`
yields no chunk of its own. -/
theorem create_attribute_chunks_falsy_excluded_witness :
    (("custom_notes", PyVal.vList []) ∈
      ([("custom_notes", PyVal.vList []), ("title", PyVal.vStr "Engineer")] : PyDict)) ∧
    truthy (PyVal.vList []) = false ∧
    ∀ c ∈ create_attribute_chunks "e1" "d1"
        [("custom_notes", PyVal.vList []), ("title", PyVal.vStr "Engineer")] "Alice" true,
      c.attribute_name ≠ some "custom_notes" :=
  ⟨by simp, rfl,
   create_attribute_chunks_falsy_excluded "e1" "d1" "Alice"
     [("custom_notes", PyVal.vList []), ("title", PyVal.vStr "Engineer")] true
     "custom_notes" (PyVal.vList []) (by simp) (by simp) rfl (by decide)⟩

/-! ## C3 amended: endpoint handling of add_relationship -/

theorem countP_map_fix {α : Type _} (l : List α) (f : α → α) (p : α → Bool)
    (h : ∀ a ∈ l, p (f a) = p a) : (l.map f).countP p = l.countP p := by
  rw [List.countP_map]
  exact List.countP_congr (fun a ha => by simpa [Function.comp] using h a ha)

theorem mem_map_of_fix {α : Type _} {l : List α} (f : α → α) {a : α} (ha : a ∈ l)
    (hfix : f a = a) : a ∈ l.map f := hfix ▸ List.mem_map_of_mem f ha

/-- C3 amended: when either endpoint entity is missing, `add_relationship`
performs no write and returns `None` — silently, with no error; when both
endpoints exist, it creates or updates the unique
`(source, target, rel_type)` edge (exactly one such edge exists
afterwards, nodes are untouched, and unrelated edges survive). -/
theorem add_relationship_spec (g : GraphState) (source_id target_id rel_type source : String)
    (confidence : ℚ) (properties : PyDict) (now : String) :
    ((g.nodes.any (fun n => n.id == source_id) &&
        g.nodes.any (fun n => n.id == target_id)) = false →
      add_relationship g source_id target_id rel_type source confidence properties now
        = (g, none)) ∧
    ((g.nodes.any (fun n => n.id == source_id) &&
        g.nodes.any (fun n => n.id == target_id)) = true →
      g.edges.countP (fun e =>
          e.src == source_id && e.tgt == target_id && e.rel_type == rel_type) ≤ 1 →
      (add_relationship g source_id target_id rel_type source confidence
          properties now).2.isSome = true ∧
      (add_relationship g source_id target_id rel_type source confidence
          properties now).1.nodes = g.nodes ∧
      (add_relationship g source_id target_id rel_type source confidence
          properties now).1.edges.countP (fun e =>
            e.src == source_id && e.tgt == target_id && e.rel_type == rel_type) = 1 ∧
      ∀ e ∈ g.edges,
        (e.src == source_id && e.tgt == target_id && e.rel_type == rel_type) = false →
        e ∈ (add_relationship g source_id target_id rel_type source confidence
              properties now).1.edges) := by
  constructor
  · intro hfalse
    simp [add_relationship, hfalse]
  · intro htrue hcount
    simp only [add_relationship, htrue, if_true]
    cases hfind : g.edges.find? (fun e =>
        e.src == source_id && e.tgt == target_id && e.rel_type == rel_type) with
    | some e0 =>
      simp only [hfind]
      have hp0 := List.find?_some hfind
      have hpos : 0 < g.edges.countP (fun e =>
          e.src == source_id && e.tgt == target_id && e.rel_type == rel_type) :=
        List.countP_pos.mpr ⟨e0, List.mem_of_find?_eq_some hfind, hp0⟩
      refine ⟨rfl, trivial, ?_, ?_⟩
      · rw [countP_map_fix]
        · exact Nat.le_antisymm hcount hpos
        · intro e _
          cases hp : (e.src == source_id && e.tgt == target_id && e.rel_type == rel_type) <;>
            simp [hp]
      · intro e he hpe
        apply mem_map_of_fix _ he
        simp [hpe]
    | none =>
      simp only [hfind]
      refine ⟨rfl, trivial, ?_, ?_⟩
      · rw [List.countP_append]
        have h0 : g.edges.countP (fun e =>
            e.src == source_id && e.tgt == target_id && e.rel_type == rel_type) = 0 :=
          List.countP_eq_zero.mpr (List.find?_eq_none.mp hfind)
        rw [h0]
        simp [List.countP_cons]
      · intro e he _
        exact List.mem_append_left _ he

/-- Witness for C3 (amended) on a two-node graph with no edges: the call
succeeds and leaves exactly one `KNOWS` edge from `a` to `b`. -/
theorem add_relationship_spec_witness :
    (add_relationship ⟨[⟨"a", []⟩, ⟨"b", []⟩], []⟩ "a" "b" "KNOWS" "user_input" 1 []
        "t1").2.isSome = true ∧
    (add_relationship ⟨[⟨"a", []⟩, ⟨"b", []⟩], []⟩ "a" "b" "KNOWS" "user_input" 1 []
        "t1").1.edges.countP
      (fun e => e.src == "a" && e.tgt == "b" && e.rel_type == "KNOWS") = 1 := by
  have h := (add_relationship_spec ⟨[⟨"a", []⟩, ⟨"b", []⟩], []⟩ "a" "b" "KNOWS"
      "user_input" 1 [] "t1").2 (by decide) (by decide)
  exact ⟨h.1, h.2.2.1⟩

/-! ## Dedup machinery (C1, C9) -/

theorem dedupe_step_none {acc : List (String × SearchHit)} {r : SearchHit}
    (hfind : acc.find? (fun kv => kv.1 == r.entity_id) = none) :
    dedupe_step acc r = acc ++ [(r.entity_id, r)] := by
  simp [dedupe_step, hfind]

theorem dedupe_step_some_lt {acc : List (String × SearchHit)} {r : SearchHit}
    {kv0 : String × SearchHit}
    (hfind : acc.find? (fun kv => kv.1 == r.entity_id) = some kv0)
    (hlt : kv0.2.score < r.score) :
    dedupe_step acc r
      = acc.map (fun kv2 => if kv2.1 == r.entity_id then (r.entity_id, r) else kv2) := by
  simp [dedupe_step, hfind, hlt]

theorem dedupe_step_some_ge {acc : List (String × SearchHit)} {r : SearchHit}
    {kv0 : String × SearchHit}
    (hfind : acc.find? (fun kv => kv.1 == r.entity_id) = some kv0)
    (hge : ¬ kv0.2.score < r.score) :
    dedupe_step acc r = acc := by
  simp [dedupe_step, hfind, hge]

/-- One grouping-loop iteration preserves the dedup invariant: unique keys,
every stored hit is a max-score representative of its entity among the hits
seen so far, and every seen entity has a stored representative. -/
theorem dedupe_step_invariant (processed : List SearchHit)
    (acc : List (String × SearchHit)) (r : SearchHit)
    (hnd : (acc.map Prod.fst).Nodup)
    (hent : ∀ kv ∈ acc, kv.2.entity_id = kv.1 ∧ kv.2 ∈ processed ∧
      ∀ h ∈ processed, h.entity_id = kv.1 → h.score ≤ kv.2.score)
    (hcov : ∀ h ∈ processed, ∃ kv ∈ acc, kv.1 = h.entity_id) :
    ((dedupe_step acc r).map Prod.fst).Nodup ∧
    (∀ kv ∈ dedupe_step acc r, kv.2.entity_id = kv.1 ∧ kv.2 ∈ processed ++ [r] ∧
      ∀ h ∈ processed ++ [r], h.entity_id = kv.1 → h.score ≤ kv.2.score) ∧
    (∀ h ∈ processed ++ [r], ∃ kv ∈ dedupe_step acc r, kv.1 = h.entity_id) := by
  cases hfind : acc.find? (fun kv => kv.1 == r.entity_id) with
  | none =>
    rw [dedupe_step_none hfind]
    have hnotin : r.entity_id ∉ acc.map Prod.fst := by
      intro hmem
      obtain ⟨kv, hkv, hke⟩ := List.mem_map.mp hmem
      exact (List.find?_eq_none.mp hfind kv hkv) (by simp [hke])
    refine ⟨?_, ?_, ?_⟩
    · rw [List.map_append, List.nodup_append]
      refine ⟨hnd, by simp, ?_⟩
      intro x hx hx'
      simp only [List.map_cons, List.map_nil, List.mem_singleton] at hx'
      subst hx'
      exact hnotin hx
    · intro kv hkv
      rcases List.mem_append.mp hkv with hkv | hkv
      · obtain ⟨hid, hmem, hbound⟩ := hent kv hkv
        refine ⟨hid, List.mem_append_left _ hmem, ?_⟩
        intro h hh hhe
        rcases List.mem_append.mp hh with hh | hh
        · exact hbound h hh hhe
        · rw [List.mem_singleton] at hh
          have hk1 : kv.1 = r.entity_id := by rw [← hhe, hh]
          exact absurd (hk1 ▸ List.mem_map_of_mem Prod.fst hkv) hnotin
      · rw [List.mem_singleton] at hkv
        rw [hkv]
        refine ⟨rfl, List.mem_append_right _ (by simp), ?_⟩
        intro h hh hhe
        rcases List.mem_append.mp hh with hh | hh
        · exfalso
          obtain ⟨kv', hkv', hke'⟩ := hcov h hh
          have hk1 : kv'.1 = r.entity_id := by
            rw [hke']
            simpa using hhe
          exact hnotin (hk1 ▸ List.mem_map_of_mem Prod.fst hkv')
        · rw [List.mem_singleton] at hh
          rw [hh]
    · intro h hh
      rcases List.mem_append.mp hh with hh | hh
      · obtain ⟨kv, hkv, hke⟩ := hcov h hh
        exact ⟨kv, List.mem_append_left _ hkv, hke⟩
      · rw [List.mem_singleton] at hh
        exact ⟨(r.entity_id, r), List.mem_append_right _ (by simp), by rw [hh]⟩
  | some kv0 =>
    have hkv0mem : kv0 ∈ acc := List.mem_of_find?_eq_some hfind
    have hkv0id : kv0.1 = r.entity_id := by simpa using List.find?_some hfind
    by_cases hlt : kv0.2.score < r.score
    · rw [dedupe_step_some_lt hfind hlt]
      have hfst : ∀ kv2 ∈ acc,
          ((if kv2.1 == r.entity_id then (r.entity_id, r) else kv2) : String × SearchHit).1
            = kv2.1 := by
        intro kv2 _
        by_cases hb : kv2.1 = r.entity_id
        · simp [hb]
        · simp [hb]
      have hmapfst : (acc.map (fun kv2 =>
            if kv2.1 == r.entity_id then (r.entity_id, r) else kv2)).map Prod.fst
          = acc.map Prod.fst := by
        rw [List.map_map]
        exact List.map_congr_left (fun kv2 h2 => hfst kv2 h2)
      refine ⟨?_, ?_, ?_⟩
      · rw [hmapfst]
        exact hnd
      · intro kv hkv
        obtain ⟨kv2, hkv2, hg⟩ := List.mem_map.mp hkv
        by_cases hb : kv2.1 = r.entity_id
        · rw [if_pos (by simp [hb])] at hg
          rw [← hg]
          refine ⟨rfl, List.mem_append_right _ (by simp), ?_⟩
          intro h hh hhe
          rcases List.mem_append.mp hh with hh | hh
          · obtain ⟨-, -, hbound0⟩ := hent kv0 hkv0mem
            refine le_of_lt (lt_of_le_of_lt (hbound0 h hh ?_) hlt)
            rw [hkv0id]
            simpa using hhe
          · rw [List.mem_singleton] at hh
            rw [hh]
        · rw [if_neg (by simp [hb])] at hg
          rw [← hg]
          obtain ⟨hid, hmem, hbound⟩ := hent kv2 hkv2
          refine ⟨hid, List.mem_append_left _ hmem, ?_⟩
          intro h hh hhe
          rcases List.mem_append.mp hh with hh | hh
          · exact hbound h hh hhe
          · rw [List.mem_singleton] at hh
            rw [hh] at hhe
            exact absurd hhe.symm hb
      · intro h hh
        rcases List.mem_append.mp hh with hh | hh
        · obtain ⟨kv', hkv', hke'⟩ := hcov h hh
          refine ⟨(if kv'.1 == r.entity_id then (r.entity_id, r) else kv'),
            List.mem_map_of_mem _ hkv', ?_⟩
          rw [hfst kv' hkv']
          exact hke'
        · rw [List.mem_singleton] at hh
          refine ⟨(r.entity_id, r), ?_, by rw [hh]⟩
          have hrepl : (if kv0.1 == r.entity_id then (r.entity_id, r) else kv0)
              = ((r.entity_id, r) : String × SearchHit) := by
            simp [hkv0id]
          have hmem2 := List.mem_map_of_mem
            (fun kv2 => if kv2.1 == r.entity_id then (r.entity_id, r) else kv2) hkv0mem
          simpa only [hrepl] using hmem2
    · rw [dedupe_step_some_ge hfind hlt]
      refine ⟨hnd, ?_, ?_⟩
      · intro kv hkv
        obtain ⟨hid, hmem, hbound⟩ := hent kv hkv
        refine ⟨hid, List.mem_append_left _ hmem, ?_⟩
        intro h hh hhe
        rcases List.mem_append.mp hh with hh | hh
        · exact hbound h hh hhe
        · rw [List.mem_singleton] at hh
          have hkveq : kv = kv0 :=
            mem_unique_of_nodup_map hnd hkv hkv0mem
              (by rw [← hhe, hh, hkv0id])
          rw [hkveq, hh]
          exact not_lt.mp hlt
      · intro h hh
        rcases List.mem_append.mp hh with hh | hh
        · exact hcov h hh
        · rw [List.mem_singleton] at hh
          exact ⟨kv0, hkv0mem, by rw [hkv0id, hh]⟩

/-- The grouping loop maintains the dedup invariant along any hit list. -/
theorem dedupe_foldl_invariant (hits : List SearchHit) :
    ∀ (processed : List SearchHit) (acc : List (String × SearchHit)),
    (acc.map Prod.fst).Nodup →
    (∀ kv ∈ acc, kv.2.entity_id = kv.1 ∧ kv.2 ∈ processed ∧
      ∀ h ∈ processed, h.entity_id = kv.1 → h.score ≤ kv.2.score) →
    (∀ h ∈ processed, ∃ kv ∈ acc, kv.1 = h.entity_id) →
    ((hits.foldl dedupe_step acc).map Prod.fst).Nodup ∧
    (∀ kv ∈ hits.foldl dedupe_step acc, kv.2.entity_id = kv.1 ∧ kv.2 ∈ processed ++ hits ∧
      ∀ h ∈ processed ++ hits, h.entity_id = kv.1 → h.score ≤ kv.2.score) ∧
    (∀ h ∈ processed ++ hits, ∃ kv ∈ hits.foldl dedupe_step acc, kv.1 = h.entity_id) := by
  induction hits with
  | nil =>
    intro processed acc hnd hent hcov
    simp only [List.foldl_nil, List.append_nil]
    exact ⟨hnd, hent, hcov⟩
  | cons r t ih =>
    intro processed acc hnd hent hcov
    obtain ⟨hnd', hent', hcov'⟩ := dedupe_step_invariant processed acc r hnd hent hcov
    have hres := ih (processed ++ [r]) (dedupe_step acc r) hnd' hent' hcov'
    rw [List.foldl_cons]
    rw [List.append_cons processed r t]
    exact hres

/-- The `entity_results` dict: unique keys; each entry is one of that
entity's hits carrying its maximum score; every hit entity is covered. -/
theorem dedupe_by_entity_spec (hits : List SearchHit) :
    ((dedupe_by_entity hits).map Prod.fst).Nodup ∧
    (∀ kv ∈ dedupe_by_entity hits, kv.2.entity_id = kv.1 ∧ kv.2 ∈ hits ∧
      ∀ h ∈ hits, h.entity_id = kv.1 → h.score ≤ kv.2.score) ∧
    (∀ h ∈ hits, ∃ kv ∈ dedupe_by_entity hits, kv.1 = h.entity_id) := by
  have hres := dedupe_foldl_invariant hits [] []
    (by simp) (fun kv hkv => absurd hkv (List.not_mem_nil kv))
    (fun h hh => absurd hh (List.not_mem_nil h))
  simp only [List.nil_append] at hres
  exact hres

theorem enrich_some_fields {mongo : MongoState} {kv : String × SearchHit}
    {r : SearchResult} (h : enrich mongo kv = some r) :
    r.entity_id = kv.1 ∧ r.score = kv.2.score ∧ (get_document mongo kv.1).isSome = true := by
  unfold enrich at h
  cases hd : get_document mongo kv.1 with
  | none => rw [hd] at h; cases h
  | some doc =>
    rw [hd] at h
    cases h
    exact ⟨rfl, rfl, rfl⟩

theorem filterMap_enrich_keys_sublist (mongo : MongoState)
    (l : List (String × SearchHit)) :
    ((l.filterMap (enrich mongo)).map (fun r => r.entity_id)).Sublist
      (l.map Prod.fst) := by
  induction l with
  | nil => simp
  | cons kv t ih =>
    cases he : enrich mongo kv with
    | none =>
      rw [List.filterMap_cons, he, List.map_cons]
      exact ih.cons _
    | some r =>
      rw [List.filterMap_cons, he, List.map_cons, List.map_cons,
        (enrich_some_fields he).1]
      exact ih.cons₂ _

/-! ## C1: the dedup invariant of search_similar_entities -/

/-- C1: for every query, the result list contains each `entity_id` at most
once, and every surviving result carries the maximum score among that
entity's hits in the underlying `search_chunks` result — even when an
entity matched several chunks. -/
theorem search_similar_entities_dedup (mongo : MongoState)
    (search_fn : String → Option String → Nat → List SearchHit)
    (query : String) (entity_type : Option String) (search_global_only : Bool)
    (limit : Nat) :
    ((search_similar_entities mongo search_fn query entity_type search_global_only
        limit).map (fun r => r.entity_id)).Nodup ∧
    ∀ r ∈ search_similar_entities mongo search_fn query entity_type search_global_only
        limit,
      (∃ h ∈ search_fn query (if search_global_only then some "global" else none) limit,
        h.entity_id = r.entity_id ∧ h.score = r.score) ∧
      (∀ h ∈ search_fn query (if search_global_only then some "global" else none) limit,
        h.entity_id = r.entity_id → h.score ≤ r.score) := by
  obtain ⟨hnd, hent, -⟩ := dedupe_by_entity_spec
    (search_fn query (if search_global_only then some "global" else none) limit)
  constructor
  · simp only [search_similar_entities]
    exact List.Nodup.sublist (filterMap_enrich_keys_sublist mongo _) hnd
  · intro r hr
    simp only [search_similar_entities] at hr
    obtain ⟨kv, hkv, he⟩ := List.mem_filterMap.mp hr
    obtain ⟨hre, hrs, -⟩ := enrich_some_fields he
    obtain ⟨hid, hmem, hbound⟩ := hent kv hkv
    constructor
    · exact ⟨kv.2, hmem, by rw [hid, hre], by rw [hrs]⟩
    · intro h hh hhe
      rw [hrs]
      exact hbound h hh (by rw [hhe, hre])

/-! ## C9: descending order and silent skipping -/

/-- When the hits arrive sorted by descending score, the grouping loop
never replaces an entry: it only appends first occurrences, so its output
is a sublist of the hits (paired with their keys). -/
theorem dedupe_sorted_sublist (hits : List SearchHit) :
    ∀ acc : List (String × SearchHit),
    hits.Pairwise (fun a b => b.score ≤ a.score) →
    (∀ kv ∈ acc, ∀ h ∈ hits, h.score ≤ kv.2.score) →
    ∃ l, l.Sublist (hits.map (fun h => (h.entity_id, h))) ∧
      hits.foldl dedupe_step acc = acc ++ l := by
  induction hits with
  | nil =>
    intro acc _ _
    exact ⟨[], by simp, by simp⟩
  | cons r t ih =>
    intro acc hs hacc
    rw [List.pairwise_cons] at hs
    cases hfind : acc.find? (fun kv => kv.1 == r.entity_id) with
    | none =>
      have hacc' : ∀ kv ∈ acc ++ [(r.entity_id, r)], ∀ h ∈ t, h.score ≤ kv.2.score := by
        intro kv hkv h hh
        rcases List.mem_append.mp hkv with hkv | hkv
        · exact hacc kv hkv h (List.mem_cons_of_mem _ hh)
        · rw [List.mem_singleton] at hkv
          rw [hkv]
          exact hs.1 h hh
      obtain ⟨l, hsub, heq⟩ := ih (acc ++ [(r.entity_id, r)]) hs.2 hacc'
      refine ⟨(r.entity_id, r) :: l, ?_, ?_⟩
      · rw [List.map_cons]
        exact hsub.cons₂ _
      · rw [List.foldl_cons, dedupe_step_none hfind, heq, List.append_assoc]
        rfl
    | some kv0 =>
      have hr : r.score ≤ kv0.2.score :=
        hacc kv0 (List.mem_of_find?_eq_some hfind) r (List.mem_cons_self _ _)
      have hacc' : ∀ kv ∈ acc, ∀ h ∈ t, h.score ≤ kv.2.score :=
        fun kv hkv h hh => hacc kv hkv h (List.mem_cons_of_mem _ hh)
      obtain ⟨l, hsub, heq⟩ := ih acc hs.2 hacc'
      refine ⟨l, ?_, ?_⟩
      · rw [List.map_cons]
        exact hsub.cons _
      · rw [List.foldl_cons, dedupe_step_some_ge hfind (not_lt.mpr hr), heq]

/-- C9: assuming `search_chunks` returns its hits ordered by descending
score, `search_similar_entities` returns its deduplicated results ordered
by descending score, and every entity whose document has been deleted is
silently omitted (each returned entity still has a document). -/
theorem search_similar_entities_sorted (mongo : MongoState)
    (search_fn : String → Option String → Nat → List SearchHit)
    (query : String) (entity_type : Option String) (search_global_only : Bool)
    (limit : Nat)
    (hsorted : (search_fn query (if search_global_only then some "global" else none)
        limit).Pairwise (fun a b => b.score ≤ a.score)) :
    (search_similar_entities mongo search_fn query entity_type search_global_only
        limit).Pairwise (fun a b => b.score ≤ a.score) ∧
    ∀ r ∈ search_similar_entities mongo search_fn query entity_type search_global_only
        limit, (get_document mongo r.entity_id).isSome = true := by
  obtain ⟨l, hsub, heq⟩ := dedupe_sorted_sublist
    (search_fn query (if search_global_only then some "global" else none) limit) []
    hsorted (fun kv hkv => absurd hkv (List.not_mem_nil kv))
  have hdl : dedupe_by_entity
      (search_fn query (if search_global_only then some "global" else none) limit) = l := by
    unfold dedupe_by_entity
    rw [heq, List.nil_append]
  constructor
  · simp only [search_similar_entities, hdl]
    have hpm : ((search_fn query (if search_global_only then some "global" else none)
        limit).map (fun h => (h.entity_id, h))).Pairwise
        (fun a b => b.2.score ≤ a.2.score) :=
      List.pairwise_map.mpr hsorted
    have hpl : l.Pairwise (fun a b => b.2.score ≤ a.2.score) :=
      List.Pairwise.sublist hsub hpm
    refine List.Pairwise.filterMap (enrich mongo) ?_ hpl
    intro a a' hrel b hb b' hb'
    rw [Option.mem_def] at hb hb'
    obtain ⟨-, hbs, -⟩ := enrich_some_fields hb
    obtain ⟨-, hbs', -⟩ := enrich_some_fields hb'
    rw [hbs, hbs']
    exact hrel
  · intro r hr
    simp only [search_similar_entities] at hr
    obtain ⟨kv, hkv, he⟩ := List.mem_filterMap.mp hr
    obtain ⟨hre, -, hds⟩ := enrich_some_fields he
    rw [hre]
    exact hds

/-- Witness for C9 on a two-hit descending result where the second hit's
entity has no document. -/
theorem search_similar_entities_sorted_witness :
    (([⟨"e1", (2 : ℚ), "global", none, "ta"⟩,
       ⟨"gone", (1 : ℚ), "attribute", some "skills", "tb"⟩] : List SearchHit).Pairwise
      (fun a b => b.score ≤ a.score)) ∧
    ((search_similar_entities [doc_e1_plain]
        (fun _ _ _ => [⟨"e1", (2 : ℚ), "global", none, "ta"⟩,
          ⟨"gone", (1 : ℚ), "attribute", some "skills", "tb"⟩]) "q" none false
        5).Pairwise (fun a b => b.score ≤ a.score) ∧
      ∀ r ∈ search_similar_entities [doc_e1_plain]
        (fun _ _ _ => [⟨"e1", (2 : ℚ), "global", none, "ta"⟩,
          ⟨"gone", (1 : ℚ), "attribute", some "skills", "tb"⟩]) "q" none false 5,
        (get_document [doc_e1_plain] r.entity_id).isSome = true) :=
  ⟨by decide,
   search_similar_entities_sorted [doc_e1_plain]
     (fun _ _ _ => [⟨"e1", (2 : ℚ), "global", none, "ta"⟩,
       ⟨"gone", (1 : ℚ), "attribute", some "skills", "tb"⟩]) "q" none false 5
     (by decide)⟩

/-! ## C8: regeneration lemmas -/

/-- With at most one scroll page of matching chunks and unique point ids,
`delete_entity_chunks` removes exactly the matching points. -/
theorem delete_entity_chunks_all (st : VectorState) (eid : String)
    (hle : (st.points.filter (fun p => point_matches p eid none)).length ≤ 100)
    (hnd : (st.points.map (fun p => p.pid)).Nodup) :
    (delete_entity_chunks st eid none).1.points
      = st.points.filter (fun p => !(point_matches p eid none)) := by
  unfold delete_entity_chunks scroll_page
  rw [List.take_of_length_le hle]
  apply List.filter_congr
  intro p hp
  congr 1
  cases hm : point_matches p eid none with
  | true =>
    have hpmem : p.pid ∈ (st.points.filter
        (fun q => point_matches q eid none)).map (fun q => q.pid) :=
      List.mem_map_of_mem _ (List.mem_filter.mpr ⟨hp, hm⟩)
    simpa [List.contains, List.elem_iff] using hpmem
  | false =>
    cases hc : ((st.points.filter
        (fun q => point_matches q eid none)).map (fun q => q.pid)).contains p.pid with
    | false => rfl
    | true =>
      exfalso
      have hpm : p.pid ∈ (st.points.filter
          (fun q => point_matches q eid none)).map (fun q => q.pid) := by
        simpa [List.contains, List.elem_iff] using hc
      obtain ⟨q, hq, hqe⟩ := List.mem_map.mp hpm
      have hq2 := List.mem_filter.mp hq
      have hqp : q = p := mem_unique_of_nodup_map hnd hq2.1 hp hqe
      rw [hqp, hm] at hq2
      cases hq2.2

/-- Qdrant upsert with fresh, pairwise-distinct point ids just appends. -/
theorem upsert_points_fresh (pts new : List VPoint)
    (hfresh : ∀ p ∈ new, p.pid ∉ pts.map (fun q => q.pid))
    (hnd : (new.map (fun q => q.pid)).Nodup) :
    upsert_points pts new = pts ++ new := by
  induction new generalizing pts with
  | nil => simp [upsert_points]
  | cons p t ih =>
    rw [List.map_cons, List.nodup_cons] at hnd
    have hnotany : (pts.any (fun q => q.pid == p.pid)) = false := by
      cases hq : pts.any (fun q => q.pid == p.pid) with
      | false => rfl
      | true =>
        exfalso
        obtain ⟨q, hqmem, hqe⟩ := List.any_eq_true.mp hq
        refine hfresh p (List.mem_cons_self _ _) ?_
        rw [← show q.pid = p.pid by simpa using hqe]
        exact List.mem_map_of_mem _ hqmem
    have hstep : upsert_points pts (p :: t) = upsert_points (pts ++ [p]) t := by
      unfold upsert_points
      rw [List.foldl_cons, if_neg (by simp [hnotany])]
    rw [hstep, ih (pts ++ [p]) ?_ hnd.2]
    · exact (List.append_cons pts p t).symm
    · intro q hq hmem
      rw [List.map_append] at hmem
      rcases List.mem_append.mp hmem with hmem | hmem
      · exact hfresh q (List.mem_cons_of_mem _ hq) hmem
      · rw [List.map_cons, List.map_nil, List.mem_singleton] at hmem
        exact hnd.1 (hmem ▸ List.mem_map_of_mem _ hq)

/-- The payload built for a chunk keeps its `entity_id` field, as long as
the chunk's metadata does not shadow the key. -/
theorem chunk_payload_entity_id (c : ChunkDict) (now : String)
    (hmd : "entity_id" ∉ c.metadata.map Prod.fst) :
    dictGet (chunk_payload c now) "entity_id" = some (.vStr c.entity_id) := by
  unfold chunk_payload
  rw [dictGet_dictMerge_of_not_mem _ _ _ hmd]
  rw [List.cons_append, dictGet_cons_ne (by simp), List.cons_append,
    dictGet_cons_self rfl]

theorem point_matches_chunk_payload (c : ChunkDict) (now eid : String)
    (heid : c.entity_id = eid) (hmd : "entity_id" ∉ c.metadata.map Prod.fst) :
    point_matches ⟨c.chunk_id, chunk_payload c now⟩ eid none = true := by
  simp [point_matches, payloadStrIs, chunk_payload_entity_id c now hmd, heid]

/-- Every attribute chunk carries the entity id it was generated for, and
its metadata never shadows the `entity_id` payload key. -/
theorem create_attribute_chunks_fields (eid did nm : String) (sd : PyDict) (ga : Bool) :
    ∀ c ∈ create_attribute_chunks eid did sd nm ga,
      c.entity_id = eid ∧ "entity_id" ∉ (c.metadata.getD []).map Prod.fst := by
  intro c hc
  simp only [create_attribute_chunks] at hc
  rcases List.mem_append.mp hc with hg | hi
  · split at hg
    · obtain ⟨g, -, hgeq⟩ := List.mem_filterMap.mp hg
      split at hgeq
      · cases hgeq
      · cases hgeq
        exact ⟨rfl, by simp⟩
    · cases hg
  · obtain ⟨av, -, haveq⟩ := List.mem_map.mp hi
    rw [← haveq]
    exact ⟨rfl, by simp⟩

/-- Every generated chunk carries the entity id and a non-shadowing
metadata map. -/
theorem generate_all_chunks_fields (eid did : String) (doc : Document)
    (ig ia ga : Bool) (s : Option String) :
    ∀ c ∈ generate_all_chunks eid did doc ig ia ga s,
      c.entity_id = eid ∧ "entity_id" ∉ (c.metadata.getD []).map Prod.fst := by
  intro c hc
  simp only [generate_all_chunks] at hc
  rcases List.mem_append.mp hc with hg | ha
  · split at hg
    · rw [List.mem_singleton] at hg
      rw [hg]
      exact ⟨rfl, by simp [create_global_chunk]⟩
    · cases hg
  · split at ha
    · exact create_attribute_chunks_fields eid did doc.entity_name doc.structured ga c ha
    · cases ha

/-- Chunk counts do not depend on the external summary text: the summary
only changes the global chunk's text, never how many chunks of each type
exist. -/
theorem generate_all_chunks_counts (eid did : String) (doc : Document)
    (ig ia ga : Bool) (s₁ s₂ : Option String) :
    (generate_all_chunks eid did doc ig ia ga s₁).length
      = (generate_all_chunks eid did doc ig ia ga s₂).length ∧
    (generate_all_chunks eid did doc ig ia ga s₁).countP
        (fun c => c.chunk_type == "global")
      = (generate_all_chunks eid did doc ig ia ga s₂).countP
          (fun c => c.chunk_type == "global") ∧
    (generate_all_chunks eid did doc ig ia ga s₁).countP
        (fun c => c.chunk_type == "attribute")
      = (generate_all_chunks eid did doc ig ia ga s₂).countP
          (fun c => c.chunk_type == "attribute") := by
  have hty : ∀ s, (create_global_chunk eid did doc s).chunk_type = "global" :=
    fun _ => rfl
  simp only [generate_all_chunks]
  cases ig <;>
    simp [List.countP_append, List.countP_cons, List.length_append, hty]

/-- C8 amended: two `process_entity` runs with `force_regenerate=True` on an
unchanged document report the same chunk counts (total, global, attribute)
— unconditionally, even if the external summaries differ; and when the
entity held at most one scroll page (100) of chunks and the freshly minted
chunk ids are new and distinct, the first run leaves the entity's stored
chunks exactly equal to the chunks generated from the current document. -/
theorem process_entity_force_regenerate_idempotent
    (st : PipelineState) (eid : String) (doc : Document)
    (u : Bool) (ls₁ ls₂ : Option String) (gen₁ gen₂ : Nat → String) (n₁ n₂ : String)
    (st₁ st₂ : PipelineState) (s₁ s₂ : ProcessStats)
    (hdoc : get_document st.mongo eid = some doc)
    (h₁ : process_entity st eid true true true u ls₁ gen₁ n₁ = .ok (st₁, s₁))
    (h₂ : process_entity st₁ eid true true true u ls₂ gen₂ n₂ = .ok (st₂, s₂)) :
    s₂.chunk_count = s₁.chunk_count ∧
    s₂.global_chunks = s₁.global_chunks ∧
    s₂.attribute_chunks = s₁.attribute_chunks ∧
    ((st.vector.points.filter (fun p => point_matches p eid none)).length ≤ 100 →
      (st.vector.points.map (fun p => p.pid)).Nodup →
      (∀ i, i < s₁.chunk_count → gen₁ i ∉ st.vector.points.map (fun p => p.pid)) →
      (∀ i j, i < s₁.chunk_count → j < s₁.chunk_count → gen₁ i = gen₁ j → i = j) →
      st₁.vector.points.filter (fun p => point_matches p eid none)
        = ((generate_all_chunks eid eid doc true true true
              (if u then ls₁ else none)).enum.map
            (fun ic => chunk_to_dict ic.2 (gen₁ ic.1))).map
            (fun c => VPoint.mk c.chunk_id (chunk_payload c n₁))) := by
  simp only [process_entity, hdoc] at h₁
  rw [Except.ok.injEq, Prod.mk.injEq] at h₁
  obtain ⟨hst₁, hs₁⟩ := h₁
  subst hst₁
  subst hs₁
  simp only [process_entity, hdoc] at h₂
  rw [Except.ok.injEq, Prod.mk.injEq] at h₂
  obtain ⟨hst₂, hs₂⟩ := h₂
  subst hst₂
  subst hs₂
  refine ⟨?_, ?_, ?_, ?_⟩
  · simp only [add_chunks_batch, List.length_map, List.enum_length]
    exact (generate_all_chunks_counts eid eid doc true true true
      (if true && u then ls₂ else none) (if true && u then ls₁ else none)).1
  · exact (generate_all_chunks_counts eid eid doc true true true
      (if true && u then ls₂ else none) (if true && u then ls₁ else none)).2.1
  · exact (generate_all_chunks_counts eid eid doc true true true
      (if true && u then ls₂ else none) (if true && u then ls₁ else none)).2.2
  · intro hle hnd hfresh hinj
    simp only [add_chunks_batch, List.length_map, List.enum_length] at hfresh hinj
    simp only [add_chunks_batch, if_true]
    rw [delete_entity_chunks_all st.vector eid hle hnd]
    have hpid_eq : (((generate_all_chunks eid eid doc true true true
          (if true && u then ls₁ else none)).enum.map
          (fun ic => chunk_to_dict ic.2 (gen₁ ic.1))).map
          (fun c => VPoint.mk c.chunk_id (chunk_payload c n₁))).map (fun p => p.pid)
        = ((generate_all_chunks eid eid doc true true true
            (if true && u then ls₁ else none)).enum.map Prod.fst).map gen₁ := by
      rw [List.map_map, List.map_map, List.map_map]
      exact List.map_congr_left (fun ic _ => rfl)
    rw [upsert_points_fresh _ _ ?_ ?_]
    · rw [List.filter_append]
      have hnil : (st.vector.points.filter
            (fun p => !(point_matches p eid none))).filter
            (fun p => point_matches p eid none) = [] := by
        rw [List.filter_eq_nil_iff]
        intro p hp
        have hnp := (List.mem_filter.mp hp).2
        rw [Bool.not_eq_true'] at hnp
        simp [hnp]
      rw [hnil, List.nil_append]
      have hself : ((generate_all_chunks eid eid doc true true true
            (if true && u then ls₁ else none)).enum.map
            (fun ic => chunk_to_dict ic.2 (gen₁ ic.1))).map
            (fun c => VPoint.mk c.chunk_id (chunk_payload c n₁))
          = (((generate_all_chunks eid eid doc true true true
              (if true && u then ls₁ else none)).enum.map
              (fun ic => chunk_to_dict ic.2 (gen₁ ic.1))).map
              (fun c => VPoint.mk c.chunk_id (chunk_payload c n₁))).filter
              (fun p => point_matches p eid none) := by
        rw [eq_comm, List.filter_eq_self]
        intro p hp
        obtain ⟨c, hc, hpe⟩ := List.mem_map.mp hp
        obtain ⟨ic, hic, hce⟩ := List.mem_map.mp hc
        have hic2 : ic.2 ∈ generate_all_chunks eid eid doc true true true
            (if true && u then ls₁ else none) := by
          rw [← List.enum_map_snd (generate_all_chunks eid eid doc true true true
            (if true && u then ls₁ else none))]
          exact List.mem_map_of_mem Prod.snd hic
        obtain ⟨hcid, hcmd⟩ := generate_all_chunks_fields eid eid doc true true true
          (if true && u then ls₁ else none) ic.2 hic2
        rw [← hpe, ← hce]
        exact point_matches_chunk_payload _ n₁ eid hcid hcmd
      rw [← hself]
      rfl
    · intro p hp hmem
      obtain ⟨c, hc, hpe⟩ := List.mem_map.mp hp
      obtain ⟨ic, hic, hce⟩ := List.mem_map.mp hc
      have hpp : p.pid = gen₁ ic.1 := by rw [← hpe, ← hce]; rfl
      have hlt : ic.1 < (generate_all_chunks eid eid doc true true true
          (if true && u then ls₁ else none)).length := by
        have h1 : ic.1 ∈ List.range (generate_all_chunks eid eid doc true true true
            (if true && u then ls₁ else none)).length := by
          rw [← List.enum_map_fst]
          exact List.mem_map_of_mem Prod.fst hic
        exact List.mem_range.mp h1
      have hsubl : ((st.vector.points.filter
          (fun q => !(point_matches q eid none))).map (fun q => q.pid)).Sublist
          (st.vector.points.map (fun q => q.pid)) :=
        (List.filter_sublist _).map _
      rw [hpp] at hmem
      exact hfresh ic.1 hlt (hsubl.subset hmem)
    · rw [hpid_eq, List.enum_map_fst]
      exact List.Nodup.map_on
        (fun x hx y hy he => hinj x y (List.mem_range.mp hx) (List.mem_range.mp hy) he)
        (List.nodup_range _)

/-- Witness for C8 (amended): an entity with one stored chunk is
force-regenerated twice; the chunk counts agree and after the first run the
stored chunks are exactly the generated embedding of the document. -/
theorem process_entity_force_regenerate_idempotent_witness :
    ∃ st₁ s₁ st₂ s₂,
      process_entity ⟨[doc_e1_plain], ⟨[], []⟩, ⟨[testPoint 0]⟩⟩ "e1" true true true false
        none (fun i => "f-" ++ toString i) "t1" = .ok (st₁, s₁) ∧
      process_entity st₁ "e1" true true true false none
        (fun i => "g-" ++ toString i) "t2" = .ok (st₂, s₂) ∧
      s₂.chunk_count = s₁.chunk_count ∧
      st₁.vector.points.filter (fun p => point_matches p "e1" none)
        = ((generate_all_chunks "e1" "e1" doc_e1_plain true true true none).enum.map
            (fun ic => chunk_to_dict ic.2 ("f-" ++ toString ic.1))).map
            (fun c => VPoint.mk c.chunk_id (chunk_payload c "t1")) := by
  refine ⟨_, _, _, _, rfl, rfl, ?_, ?_⟩
  · exact (process_entity_force_regenerate_idempotent
      ⟨[doc_e1_plain], ⟨[], []⟩, ⟨[testPoint 0]⟩⟩ "e1" doc_e1_plain false none none
      (fun i => "f-" ++ toString i) (fun i => "g-" ++ toString i) "t1" "t2" _ _ _ _
      rfl rfl rfl).1
  · refine (process_entity_force_regenerate_idempotent
      ⟨[doc_e1_plain], ⟨[], []⟩, ⟨[testPoint 0]⟩⟩ "e1" doc_e1_plain false none none
      (fun i => "f-" ++ toString i) (fun i => "g-" ++ toString i) "t1" "t2" _ _ _ _
      rfl rfl rfl).2.2.2 (by decide) (by decide) ?_ ?_
    · intro i hi
      rw [Nat.lt_one_iff.mp hi]
      decide
    · intro i j hi hj _
      rw [Nat.lt_one_iff.mp hi, Nat.lt_one_iff.mp hj]

end PersonaMate
